import Mathlib

/-!
Verification of the clashmap sharded concurrent hash table.

The development is a shallow embedding of the library's core: the custom
reader-writer lock (src/lock.rs), the shard dispatch and construction logic
(src/sharded.rs, src/table.rs), and the reference-handle projections
(src/util.rs, src/tableref/one.rs, src/mapref/one.rs).

Machine integers (usize, u64; the crate targets 64-bit words) are modelled as
Nat with explicit reduction modulo 2^64 where Rust wrapping semantics matter.
Atomic read-modify-write operations are modelled as pure functions from the
pre-state of the lock word to the post-state plus the unpark side effects,
which captures each operation as the single atomic step it performs.
-/

namespace Clash

/-- usize::BITS on the 64-bit targets the crate is built for. -/
def wordBits : Nat := 64

/-- The usize modulus, 2^64. -/
def USIZE : Nat := 2 ^ wordBits

namespace RawRwLock

/-! State-word constants from src/lock.rs. -/

def READERS_PARKED : Nat := 1

def WRITERS_PARKED : Nat := 2

def ONE_READER : Nat := 4

/-- ONE_WRITER = !(READERS_PARKED | WRITERS_PARKED): the usize complement,
i.e. all bits except the two flag bits. -/
def ONE_WRITER : Nat := (USIZE - 1) ^^^ (READERS_PARKED ||| WRITERS_PARKED)

/-- The reader count stored in the high bits of the state word (the state
counts readers in multiples of ONE_READER = 4). -/
def readerCount (s : Nat) : Nat := s >>> 2

/-! Atomic operations of the lock, modelled as pure functions of the
pre-state of the state word. Each returns the post-state together with the
unpark side effects the operation performs. The model is the single atomic
step plus the deterministic slow path as it executes when no other thread
interleaves, which is the granularity at which the claims speak. -/

/-- Result of RawRwLock::downgrade: the new state word and whether
unpark_all was invoked on the reader park address. -/
structure DowngradeEffect where
  newState : Nat
  unparkAllReaders : Bool
deriving DecidableEq

/-- RawRwLockDowngrade::downgrade (src/lock.rs): fetch_and with mask
ONE_READER | WRITERS_PARKED (release ordering), then unpark all readers if
READERS_PARKED was set in the old state. -/
def downgrade (s : Nat) : DowngradeEffect :=
  { newState := s &&& (ONE_READER ||| WRITERS_PARKED)
    unparkAllReaders := s &&& READERS_PARKED != 0 }

/-- Result of RawRwLock::unlock_shared: the new state word and whether
unpark_one was invoked on the writer park address. -/
structure UnlockSharedEffect where
  newState : Nat
  unparkOneWriter : Bool
deriving DecidableEq

/-- RawRwLock::unlock_shared_slow (src/lock.rs): compare_exchange
WRITERS_PARKED -> 0; on success unpark one writer. `s` is the current state
word when the slow path runs (after the fetch_sub). -/
def unlockSharedSlow (s : Nat) : UnlockSharedEffect :=
  if s = WRITERS_PARKED then ⟨0, true⟩ else ⟨s, false⟩

/-- RawRwLock::unlock_shared (src/lock.rs): fetch_sub(ONE_READER) with
release ordering (wrapping, as fetch_sub on AtomicUsize wraps); the slow
path runs exactly when the value read was ONE_READER | WRITERS_PARKED. -/
def unlockShared (s : Nat) : UnlockSharedEffect :=
  let s1 := (s + (USIZE - ONE_READER)) % USIZE
  if s = ONE_READER ||| WRITERS_PARKED then unlockSharedSlow s1 else ⟨s1, false⟩

/-- Outcome of a try-lock attempt: whether it succeeded and the resulting
state word (unchanged on failure). -/
structure TryLockEffect where
  ok : Bool
  newState : Nat
deriving DecidableEq

/-- usize::checked_add. -/
def checkedAdd (a b : Nat) : Option Nat :=
  if a + b < USIZE then some (a + b) else none

/-- RawRwLock::try_lock_shared_fast (src/lock.rs): load the state, try
checked_add(ONE_READER); if the sum does not collide with the writer-held
encoding, CAS it in (acquire ordering). -/
def tryLockSharedFast (s : Nat) : TryLockEffect :=
  match checkedAdd s ONE_READER with
  | some ns => if ns &&& ONE_WRITER != ONE_WRITER then ⟨true, ns⟩ else ⟨false, s⟩
  | none => ⟨false, s⟩

/-- RawRwLock::try_lock_shared_slow (src/lock.rs): the CAS loop, which with
no interleaving runs exactly one iteration with the same success condition
as the fast path. -/
def tryLockSharedSlow (s : Nat) : TryLockEffect :=
  match checkedAdd s ONE_READER with
  | some ns => if ns &&& ONE_WRITER = ONE_WRITER then ⟨false, s⟩ else ⟨true, ns⟩
  | none => ⟨false, s⟩

/-- RawRwLock::try_lock_shared: fast path, then slow path. -/
def tryLockShared (s : Nat) : TryLockEffect :=
  let fast := tryLockSharedFast s
  if fast.ok then fast else tryLockSharedSlow s

/-- RawRwLock::try_lock_exclusive (src/lock.rs): CAS 0 -> ONE_WRITER with
acquire ordering. -/
def tryLockExclusive (s : Nat) : TryLockEffect :=
  if s = 0 then ⟨true, ONE_WRITER⟩ else ⟨false, s⟩

/-- Outcome of lock_shared from a given pre-state: acquired with a new
state word, panicked with the assert message, or parked on the reader park
address (blocked until a writer releases; retries after wake-up are beyond
the single-step model). -/
inductive LockSharedOutcome where
  | acquired (newState : Nat)
  | panicked (msg : String)
  | parked
deriving DecidableEq

/-- One pass of RawRwLock::lock_shared_slow (src/lock.rs): while
checked_add succeeds, assert the sum is distinguishable from the
writer-held encoding ("reader count overflowed") and CAS it in; once
checked_add fails (a writer holds the lock) fall through to parking. -/
def lockSharedSlow (s : Nat) : LockSharedOutcome :=
  match checkedAdd s ONE_READER with
  | some ns =>
    if ns &&& ONE_WRITER = ONE_WRITER then .panicked "reader count overflowed"
    else .acquired ns
  | none => .parked

/-- RawRwLock::lock_shared (src/lock.rs): fast path, else slow path. -/
def lockShared (s : Nat) : LockSharedOutcome :=
  let fast := tryLockSharedFast s
  if fast.ok then .acquired fast.newState else lockSharedSlow s

end RawRwLock

/-! Sharding layer: src/sharded.rs and src/table.rs. -/

/-- usize::trailing_zeros, by structural recursion on a fuel of
wordBits; trailing_zeros(0) = usize::BITS. -/
def tzAux : Nat → Nat → Nat
  | 0, _ => 0
  | f + 1, n => if n % 2 = 1 then 0 else 1 + tzAux f (n / 2)

def trailingZeros (n : Nat) : Nat :=
  if n = 0 then wordBits else tzAux wordBits n

/-- usize::is_power_of_two: nonzero and no bit shared with n - 1. -/
def isPowerOfTwo (n : Nat) : Bool :=
  n != 0 && (n &&& (n - 1)) == 0

/-- Bitwise complement on usize: !m = (2^64 - 1) - m. -/
def usizeNot (m : Nat) : Nat := (USIZE - 1) ^^^ m

namespace hashbrown

/-- Model of the external hashbrown::HashTable<T> sub-table: the capacity it
was constructed with and its entries as (stored hash, element) pairs. Only
the interface contract the shards rely on is modelled (construction, lookup
by hash plus equality predicate, element-wise clone preserving hashes). -/
structure HashTable (T : Type) where
  cap : Nat
  entries : List (Nat × T)
deriving DecidableEq

/-- hashbrown::HashTable::with_capacity. -/
def HashTable.withCapacity (T : Type) (c : Nat) : HashTable T :=
  { cap := c, entries := [] }

/-- hashbrown::HashTable::find(hash, eq): some element whose stored hash is
`hash` and which satisfies `eq`, if one exists. -/
def HashTable.find {T : Type} (t : HashTable T) (hash : Nat) (eq : T → Bool) :
    Option T :=
  (t.entries.find? (fun p => p.1 == hash && eq p.2)).map Prod.snd

/-- hashbrown::HashTable::clone: clones each element, preserving stored
hashes (and, unobserved by any claim, the capacity). -/
def HashTable.clone {T : Type} (cl : T → T) (t : HashTable T) : HashTable T :=
  { cap := t.cap, entries := t.entries.map (fun p => (p.1, cl p.2)) }

end hashbrown

open hashbrown

/-- One shard: a reader-writer lock (its state word) guarding a sub-table. -/
structure LockedShard (T : Type) where
  lockState : Nat
  table : HashTable T
deriving DecidableEq

/-- ClashTable<T> (src/table.rs): the shift value and the boxed slice of
cache-padded shards. -/
structure ClashTable (T : Type) where
  shift : Nat
  shards : List (LockedShard T)
deriving DecidableEq

/-- One shard of the generic collection: a lock state word guarding an
arbitrary value. -/
structure LockedCell (T : Type) where
  lockState : Nat
  value : T
deriving DecidableEq

/-- ClashCollection<T> (src/sharded.rs). -/
structure ClashCollection (T : Type) where
  shift : Nat
  shards : List (LockedCell T)
deriving DecidableEq

/-- ClashTable::with_capacity_and_shard_amount (src/table.rs). The two
asserts are modelled as `none`; + wraps mod 2^64 (release semantics) and
& !(shard_amount - 1) is the usize complement mask. -/
def ClashTable.withCapacityAndShardAmount (T : Type)
    (capacity shardAmount : Nat) : Option (ClashTable T) :=
  if shardAmount > 1 ∧ isPowerOfTwo shardAmount then
    let shift := wordBits - trailingZeros shardAmount
    let cap :=
      if capacity ≠ 0 then
        ((capacity + (shardAmount - 1)) % USIZE) &&& usizeNot (shardAmount - 1)
      else capacity
    let cps := cap / shardAmount
    some { shift := shift
           shards := List.replicate shardAmount
             ⟨0, HashTable.withCapacity T cps⟩ }
  else none

/-- ClashCollection::with_shard_amount (src/sharded.rs); the per-shard init
closure is modelled as a pure value. -/
def ClashCollection.withShardAmount (T : Type)
    (shardAmount : Nat) (init : T) : Option (ClashCollection T) :=
  if shardAmount > 1 ∧ isPowerOfTwo shardAmount then
    some { shift := wordBits - trailingZeros shardAmount
           shards := List.replicate shardAmount ⟨0, init⟩ }
  else none

/-- _determine_shard (identical in src/sharded.rs and src/table.rs):
idx = (hash << 7) >> shift on usize, with the `idx >= shards.len()`
branch — unreachable!("invalid shard index") in debug builds — modelled as
`none`. -/
def determineShard (shift numShards hash : Nat) : Option Nat :=
  let idx := ((hash <<< 7) % USIZE) >>> shift
  if idx ≥ numShards then none else some idx

/-! Reference handles: src/util.rs, src/tableref/one.rs, src/mapref/one.rs.
A detached guard owns the release of one raw lock; it is modelled by the
identity of that lock, so that a theorem stating a returned handle carries
the same guard states that the shard lock was neither released nor
re-acquired. -/

/-- RwLockReadGuardDetached (src/util.rs): shared-mode RAII release of the
raw lock it references. -/
structure RwLockReadGuardDetached where
  lock : Nat
deriving DecidableEq

/-- RwLockWriteGuardDetached (src/util.rs): exclusive-mode RAII release of
the raw lock it references. -/
structure RwLockWriteGuardDetached where
  lock : Nat
deriving DecidableEq

namespace util

/-- util::try_map (src/util.rs), the polonius-shaped projection: apply f to
the borrow; return the projected borrow on success and the original borrow
on failure. -/
def tryMap {T U : Type} (t : T) (f : T → Option U) : Except T U :=
  match f t with
  | some u => .ok u
  | none => .error t

end util

namespace tableref

/-- tableref::one::Ref (src/tableref/one.rs): read guard plus borrow. -/
structure Ref (T : Type) where
  _guard : RwLockReadGuardDetached
  t : T
deriving DecidableEq

/-- tableref::one::MappedRef. -/
structure MappedRef (T : Type) where
  _guard : RwLockReadGuardDetached
  t : T
deriving DecidableEq

/-- tableref::one::RefMut: write guard plus borrow. -/
structure RefMut (T : Type) where
  guard : RwLockWriteGuardDetached
  t : T
deriving DecidableEq

/-- tableref::one::MappedRefMut. -/
structure MappedRefMut (T : Type) where
  _guard : RwLockWriteGuardDetached
  t : T
deriving DecidableEq

/-- Ref::value. -/
def Ref.value {T : Type} (r : Ref T) : T := r.t

/-- RefMut::value. -/
def RefMut.value {T : Type} (r : RefMut T) : T := r.t

/-- Ref::try_map (src/tableref/one.rs): Ok(MappedRef) carrying the guard on
success, Err(self) on failure. -/
def Ref.tryMap {T U : Type} (r : Ref T) (f : T → Option U) :
    Except (Ref T) (MappedRef U) :=
  match f r.t with
  | some t => .ok ⟨r._guard, t⟩
  | none => .error r

/-- RefMut::try_map (src/tableref/one.rs): destructure into guard and
borrow, run util::try_map, and rebuild either the mapped handle or the
original one around the same guard. -/
def RefMut.tryMap {T U : Type} (r : RefMut T) (f : T → Option U) :
    Except (RefMut T) (MappedRefMut U) :=
  match util.tryMap r.t f with
  | .ok t => .ok ⟨r.guard, t⟩
  | .error t => .error ⟨r.guard, t⟩

end tableref

namespace mapref

/-- mapref::one::Ref (src/mapref/one.rs): read guard plus key and value
borrows. -/
structure Ref (K V : Type) where
  _guard : RwLockReadGuardDetached
  k : K
  v : V
deriving DecidableEq

/-- mapref::one::MappedRef. -/
structure MappedRef (K V : Type) where
  _guard : RwLockReadGuardDetached
  k : K
  v : V
deriving DecidableEq

/-- Ref::value. -/
def Ref.value {K V : Type} (r : Ref K V) : V := r.v

/-- mapref Ref::try_map (src/mapref/one.rs): project the value; Ok carrying
guard and key on success, Err(self) on failure. -/
def Ref.tryMap {K V W : Type} (r : Ref K V) (f : V → Option W) :
    Except (Ref K V) (MappedRef K W) :=
  match f r.v with
  | some v => .ok ⟨r._guard, r.k, v⟩
  | none => .error r

end mapref

/-- Modelled from the spec: the three-valued result type
`TryResult { Present(T), Absent, Locked }` of src/try_result.rs, whose
source file is not present under src/ (only its uses in src/table.rs are). -/
inductive TryResult (R : Type) where
  | Present (r : R)
  | Absent
  | Locked
deriving DecidableEq

/-- ClashTable::try_find (src/table.rs): determine the shard, try_read its
lock (Locked on failure), then find(hash, eq) in the sub-table, wrapping a
hit in a Ref carrying the shard's read guard. `none` models the unreachable
invalid-shard branch and the impossible out-of-range shard access. -/
def ClashTable.tryFind {T : Type} (m : ClashTable T) (hash : Nat)
    (eq : T → Bool) : Option (TryResult (tableref.Ref T)) :=
  match determineShard m.shift m.shards.length hash with
  | none => none
  | some idx =>
    match m.shards[idx]? with
    | none => none
    | some sh =>
      if (RawRwLock.tryLockShared sh.lockState).ok then
        match sh.table.find hash eq with
        | some t => some (.Present ⟨⟨idx⟩, t⟩)
        | none => some .Absent
      else some .Locked

/-- ClashTable::try_find_mut (src/table.rs): as try_find but with try_write
(exclusive acquisition) and find_entry, yielding a RefMut. -/
def ClashTable.tryFindMut {T : Type} (m : ClashTable T) (hash : Nat)
    (eq : T → Bool) : Option (TryResult (tableref.RefMut T)) :=
  match determineShard m.shift m.shards.length hash with
  | none => none
  | some idx =>
    match m.shards[idx]? with
    | none => none
    | some sh =>
      if (RawRwLock.tryLockExclusive sh.lockState).ok then
        match sh.table.find hash eq with
        | some t => some (.Present ⟨⟨idx⟩, t⟩)
        | none => some .Absent
      else some .Locked

/-- impl Clone for ClashTable (src/table.rs): same shift; each shard is
read under its lock and its sub-table cloned into a freshly constructed
RwLock (state word 0). -/
def ClashTable.clone {T : Type} (cl : T → T) (m : ClashTable T) :
    ClashTable T :=
  { shift := m.shift
    shards := m.shards.map (fun sh => ⟨0, sh.table.clone cl⟩) }

/-- impl Clone for ClashCollection (src/sharded.rs): same shift; each
shard's value is read under its lock and cloned into a fresh RwLock. -/
def ClashCollection.clone {T : Type} (cl : T → T) (c : ClashCollection T) :
    ClashCollection T :=
  { shift := c.shift
    shards := c.shards.map (fun sh => ⟨0, cl sh.value⟩) }

/-- A constructed table shape: the shift and shard count any constructor
produces for shard_amount = 2^k (src/table.rs, src/sharded.rs enforce
2 ≤ 2^k, and a usize shard amount bounds k ≤ 63). -/
def WellFormed {T : Type} (m : ClashTable T) (k : Nat) : Prop :=
  m.shift = wordBits - k ∧ m.shards.length = 2 ^ k ∧ 1 ≤ k ∧ k ≤ 63

/-- Written from the spec's words for comparison: "rounds the capacity up
to the next multiple of shard count", i.e. the least multiple of n that is
at least c (mathematically, without machine-word wrapping). -/
def specRoundUpToMultiple (c n : Nat) : Nat := (c + n - 1) / n * n

/-- A concrete constructed table (the value of
with_capacity_and_shard_amount(0, 4)), used to instantiate theorems. -/
def sampleConstructedTable : ClashTable Nat :=
  ⟨62, List.replicate 4 ⟨0, HashTable.withCapacity Nat 0⟩⟩

/-- A concrete constructed collection (with_shard_amount(4, || 0)). -/
def sampleConstructedCollection : ClashCollection Nat :=
  ⟨62, List.replicate 4 ⟨0, 0⟩⟩

/-- A concrete two-shard table holding one element of hash 5 in shard 0,
with shard 1 write-locked, used to instantiate theorems. -/
def sampleTwoShardTable : ClashTable Nat :=
  ⟨63, [⟨0, ⟨0, [(5, 42)]⟩⟩, ⟨RawRwLock.ONE_WRITER, ⟨0, []⟩⟩]⟩

/-! Supporting lemmas. -/

theorem USIZE_eq : USIZE = 18446744073709551616 := by decide

theorem ONE_WRITER_eq : RawRwLock.ONE_WRITER = USIZE - 4 := by decide

/-- Bitwise helper: for x below 2^64, masking with 2^64 - 2^k clears the low
k bits, which equals rounding down to a multiple of 2^k. -/
theorem and_usize_sub_pow (x k : Nat) (hx : x < 2 ^ 64) (hk : k ≤ 64) :
    x &&& (2 ^ 64 - 2 ^ k) = x / 2 ^ k * 2 ^ k := by
  have hmask : (2 : Nat) ^ 64 - 2 ^ k = (2 ^ (64 - k) - 1) <<< k := by
    rw [Nat.shiftLeft_eq, Nat.sub_mul, one_mul, ← Nat.pow_add]
    rw [Nat.sub_add_cancel hk]
  have hdiv : x / 2 ^ k * 2 ^ k = (x >>> k) <<< k := by
    rw [Nat.shiftRight_eq_div_pow, Nat.shiftLeft_eq]
  rw [hmask, hdiv]
  apply Nat.eq_of_testBit_eq
  intro i
  rw [Nat.testBit_land, Nat.testBit_shiftLeft, Nat.testBit_shiftLeft]
  by_cases hik : k ≤ i
  · by_cases hi64 : i < 64
    · have h1 : (2 ^ (64 - k) - 1).testBit (i - k) = true := by
        rw [Nat.testBit_two_pow_sub_one]
        simp only [decide_eq_true_eq]
        omega
      have h2 : (x >>> k).testBit (i - k) = x.testBit i := by
        rw [Nat.testBit_shiftRight]
        congr 1
        omega
      simp [hik, h1, h2]
    · have hxi : x.testBit i = false := by
        apply Nat.testBit_lt_two_pow
        calc x < 2 ^ 64 := hx
        _ ≤ 2 ^ i := Nat.pow_le_pow_right (by omega) (by omega)
      have h2 : (x >>> k).testBit (i - k) = x.testBit i := by
        rw [Nat.testBit_shiftRight]
        congr 1
        omega
      simp [hxi, h2]
  · simp [hik]

/-- A state word is writer-held exactly when it lies in the top four
values of the usize range. -/
theorem and_ONE_WRITER_eq_iff (s : Nat) (hs : s < USIZE) :
    s &&& RawRwLock.ONE_WRITER = RawRwLock.ONE_WRITER ↔ USIZE - 4 ≤ s := by
  rw [ONE_WRITER_eq, USIZE_eq] at *
  have h4 : (18446744073709551616 : Nat) - 4 = 2 ^ 64 - 2 ^ 2 := by norm_num
  rw [h4, and_usize_sub_pow s 2 (by omega) (by omega)]
  omega

theorem tzAux_two_pow (k : Nat) : ∀ f, k < f → tzAux f (2 ^ k) = k := by
  induction k with
  | zero =>
    intro f hf
    match f, hf with
    | f + 1, _ => simp [tzAux]
  | succ k ih =>
    intro f hf
    match f, hf with
    | f + 1, hf =>
      have he : 2 ^ (k + 1) % 2 = 0 := by
        simp [Nat.pow_succ, Nat.mul_mod_left]
      have hd : 2 ^ (k + 1) / 2 = 2 ^ k := by
        rw [Nat.pow_succ, Nat.mul_div_cancel]
        omega
      simp only [tzAux, he, hd]
      rw [if_neg (by omega), ih f (by omega)]
      omega

theorem trailingZeros_two_pow (k : Nat) (hk : k ≤ 63) :
    trailingZeros (2 ^ k) = k := by
  have hne : (2 : Nat) ^ k ≠ 0 := by positivity
  rw [trailingZeros, if_neg hne, wordBits]
  exact tzAux_two_pow k 64 (by omega)

theorem isPowerOfTwo_two_pow (k : Nat) : isPowerOfTwo (2 ^ k) = true := by
  have hand : 2 ^ k &&& (2 ^ k - 1) = 0 := by
    apply Nat.eq_of_testBit_eq
    intro i
    rw [Nat.testBit_land, Nat.testBit_two_pow_sub_one, Nat.zero_testBit]
    by_cases hik : i = k
    · subst hik
      simp
    · rw [Nat.testBit_two_pow_of_ne (fun h => hik h.symm)]
      simp
  have hne : (2 : Nat) ^ k ≠ 0 := by positivity
  simp [isPowerOfTwo, hand, hne]

theorem usizeNot_two_pow_sub_one (k : Nat) (hk : k ≤ 64) :
    usizeNot (2 ^ k - 1) = USIZE - 2 ^ k := by
  rw [usizeNot, USIZE]
  have hmask : (2 : Nat) ^ wordBits - 2 ^ k = (2 ^ (64 - k) - 1) <<< k := by
    rw [Nat.shiftLeft_eq, Nat.sub_mul, one_mul, ← Nat.pow_add, wordBits]
    rw [Nat.sub_add_cancel hk]
  rw [hmask]
  apply Nat.eq_of_testBit_eq
  intro i
  rw [Nat.testBit_xor, Nat.testBit_shiftLeft, Nat.testBit_two_pow_sub_one,
    Nat.testBit_two_pow_sub_one, wordBits]
  by_cases hik : k ≤ i
  · by_cases hi64 : i < 64
    · have : i - k < 64 - k := by omega
      simp only [Nat.testBit_two_pow_sub_one]
      simp [hik, hi64, this]
    · have h1 : ¬ i < 64 := hi64
      have h2 : ¬ i - k < 64 - k := by omega
      have h3 : ¬ i < k := by omega
      simp only [Nat.testBit_two_pow_sub_one]
      simp [hik, h1, h2, h3]
  · have h1 : i < 64 := by omega
    have h2 : i < k := by omega
    simp [hik, h1, h2]

/-- The shard index computed by shift dispatch is below 2^k whenever
shift = wordBits - k. -/
theorem shifted_idx_lt (k hash : Nat) (hk2 : k ≤ 63) :
    ((hash <<< 7) % USIZE) >>> (wordBits - k) < 2 ^ k := by
  rw [Nat.shiftRight_eq_div_pow]
  have hx : (hash <<< 7) % USIZE < 2 ^ 64 := by
    rw [USIZE_eq] at *
    exact Nat.mod_lt _ (by norm_num)
  have hd : 0 < (2 : Nat) ^ (wordBits - k) := by positivity
  rw [Nat.div_lt_iff_lt_mul hd]
  calc (hash <<< 7) % USIZE < 2 ^ 64 := hx
  _ = 2 ^ k * 2 ^ (wordBits - k) := by
      rw [← Nat.pow_add, wordBits]
      congr 1
      omega

/-! Claim theorems. -/

/-- C2: for every writer-held state word (all high bits set, parked-flag
bits arbitrary), downgrade replaces the state with ONE_READER, preserving
the WRITERS_PARKED bit and clearing the READERS_PARKED bit, in the single
atomic fetch_and step (release ordering in the source), and it unparks all
parked readers exactly when READERS_PARKED was set in the old state. -/
theorem downgrade_spec (s : Nat) (hs : s < USIZE)
    (hw : s &&& RawRwLock.ONE_WRITER = RawRwLock.ONE_WRITER) :
    (RawRwLock.downgrade s).newState =
      (RawRwLock.ONE_READER ||| (s &&& RawRwLock.WRITERS_PARKED)) ∧
    (RawRwLock.downgrade s).newState &&& RawRwLock.READERS_PARKED = 0 ∧
    ((RawRwLock.downgrade s).unparkAllReaders = true ↔
      s &&& RawRwLock.READERS_PARKED ≠ 0) := by
  rw [and_ONE_WRITER_eq_iff s hs] at hw
  rw [USIZE_eq] at hw hs
  have hcases : s = 18446744073709551612 ∨ s = 18446744073709551613 ∨
      s = 18446744073709551614 ∨ s = 18446744073709551615 := by omega
  rcases hcases with h | h | h | h <;> subst h <;> refine ⟨by decide, by decide, by decide⟩

/-- Witness for C2 at the writer-held state with READERS_PARKED set. -/
theorem downgrade_spec_witness :
    (RawRwLock.downgrade (USIZE - 3)).newState =
      (RawRwLock.ONE_READER ||| ((USIZE - 3) &&& RawRwLock.WRITERS_PARKED)) ∧
    (RawRwLock.downgrade (USIZE - 3)).newState &&& RawRwLock.READERS_PARKED = 0 ∧
    ((RawRwLock.downgrade (USIZE - 3)).unparkAllReaders = true ↔
      (USIZE - 3) &&& RawRwLock.READERS_PARKED ≠ 0) :=
  downgrade_spec (USIZE - 3) (by decide) (by decide)

/-- C3 counterexample: at pre-state 7 (reader count 1, WRITERS_PARKED set,
READERS_PARKED also set, not writer-held), the last reader exits while a
writer is parked, yet unlock_shared performs no unpark: the slow path runs
only when the old state is exactly ONE_READER | WRITERS_PARKED = 6. -/
theorem unlockShared_unpark_counterexample :
    RawRwLock.readerCount 7 = 1 ∧
    (7 : Nat) &&& RawRwLock.WRITERS_PARKED ≠ 0 ∧
    (7 : Nat) &&& RawRwLock.ONE_WRITER ≠ RawRwLock.ONE_WRITER ∧
    (7 : Nat) < USIZE ∧
    (RawRwLock.unlockShared 7).unparkOneWriter = false := by decide

/-- C3 (amended): unlock_shared subtracts ONE_READER from the state word in
one atomic fetch_sub (release ordering in the source), and it unparks one
writer if and only if the pre-state is exactly ONE_READER | WRITERS_PARKED,
i.e. the last reader exits while a writer is parked and the READERS_PARKED
bit is clear. -/
theorem unlockShared_spec (s : Nat) (hs : s < USIZE)
    (hr : 1 ≤ RawRwLock.readerCount s)
    (hnw : s &&& RawRwLock.ONE_WRITER ≠ RawRwLock.ONE_WRITER) :
    (RawRwLock.unlockShared s).newState =
      (if s = RawRwLock.ONE_READER ||| RawRwLock.WRITERS_PARKED then 0
       else s - RawRwLock.ONE_READER) ∧
    ((RawRwLock.unlockShared s).unparkOneWriter = true ↔
      s = RawRwLock.ONE_READER ||| RawRwLock.WRITERS_PARKED) := by
  have hor : RawRwLock.ONE_READER ||| RawRwLock.WRITERS_PARKED = 6 := by decide
  have hs4 : 4 ≤ s := by
    have : RawRwLock.readerCount s = s / 4 := by
      rw [RawRwLock.readerCount, Nat.shiftRight_eq_div_pow]
    rw [this] at hr
    omega
  have hsub : (s + (USIZE - RawRwLock.ONE_READER)) % USIZE = s - 4 := by
    have h1 : RawRwLock.ONE_READER = 4 := by decide
    rw [h1, USIZE_eq] at *
    omega
  rw [RawRwLock.unlockShared, hsub, hor]
  by_cases h6 : s = 6
  · subst h6
    simp [RawRwLock.unlockSharedSlow]
    decide
  · rw [if_neg h6, if_neg h6]
    simp [h6, show RawRwLock.ONE_READER = 4 from by decide]

/-- Witness for C3's amended theorem at the pre-state
ONE_READER | WRITERS_PARKED. -/
theorem unlockShared_spec_witness :
    (RawRwLock.unlockShared 6).newState =
      (if (6 : Nat) = RawRwLock.ONE_READER ||| RawRwLock.WRITERS_PARKED then 0
       else 6 - RawRwLock.ONE_READER) ∧
    ((RawRwLock.unlockShared 6).unparkOneWriter = true ↔
      (6 : Nat) = RawRwLock.ONE_READER ||| RawRwLock.WRITERS_PARKED) :=
  unlockShared_spec 6 (by decide) (by decide) (by decide)

/-- C5: from any state word that is not writer-held (including states with
WRITERS_PARKED set because a writer is waiting), provided one more reader
does not collide with the writer-held encoding, both try_lock_shared and
lock_shared acquire the lock by adding ONE_READER to the state word. -/
theorem lockShared_succeeds_when_no_writer (s : Nat) (hs : s < USIZE)
    (hnw : s &&& RawRwLock.ONE_WRITER ≠ RawRwLock.ONE_WRITER)
    (hnov : (s + RawRwLock.ONE_READER) &&& RawRwLock.ONE_WRITER ≠
      RawRwLock.ONE_WRITER) :
    RawRwLock.tryLockShared s = ⟨true, s + RawRwLock.ONE_READER⟩ ∧
    RawRwLock.lockShared s = .acquired (s + RawRwLock.ONE_READER) := by
  have hlt : s < USIZE - 4 := by
    rcases Nat.lt_or_ge s (USIZE - 4) with h | h
    · exact h
    · exact absurd ((and_ONE_WRITER_eq_iff s hs).mpr h) hnw
  have hadd : RawRwLock.checkedAdd s RawRwLock.ONE_READER =
      some (s + RawRwLock.ONE_READER) := by
    rw [RawRwLock.checkedAdd, if_pos]
    have : RawRwLock.ONE_READER = 4 := by decide
    omega
  have hfast : RawRwLock.tryLockSharedFast s =
      ⟨true, s + RawRwLock.ONE_READER⟩ := by
    rw [RawRwLock.tryLockSharedFast, hadd]
    simp [hnov]
  refine ⟨?_, ?_⟩
  · simp [RawRwLock.tryLockShared, hfast]
  · simp [RawRwLock.lockShared, hfast]

/-- Witness for C5 at state WRITERS_PARKED (a writer is waiting, no writer
holds the lock). -/
theorem lockShared_succeeds_when_no_writer_witness :
    RawRwLock.tryLockShared 2 = ⟨true, 2 + RawRwLock.ONE_READER⟩ ∧
    RawRwLock.lockShared 2 = .acquired (2 + RawRwLock.ONE_READER) :=
  lockShared_succeeds_when_no_writer 2 (by decide) (by decide) (by decide)

/-- C8: from any state word whose reader count is at capacity (one more
reader would make the word indistinguishable from the writer-held
encoding, while no writer holds the lock), lock_shared panics with the
"reader count overflowed" assertion instead of wrapping the count. -/
theorem lockShared_overflow_panics (s : Nat) (hs : s < USIZE)
    (hnw : s &&& RawRwLock.ONE_WRITER ≠ RawRwLock.ONE_WRITER)
    (hov : (s + RawRwLock.ONE_READER) &&& RawRwLock.ONE_WRITER =
      RawRwLock.ONE_WRITER) :
    RawRwLock.lockShared s = .panicked "reader count overflowed" := by
  have hlt : s < USIZE - 4 := by
    rcases Nat.lt_or_ge s (USIZE - 4) with h | h
    · exact h
    · exact absurd ((and_ONE_WRITER_eq_iff s hs).mpr h) hnw
  have hadd : RawRwLock.checkedAdd s RawRwLock.ONE_READER =
      some (s + RawRwLock.ONE_READER) := by
    rw [RawRwLock.checkedAdd, if_pos]
    have : RawRwLock.ONE_READER = 4 := by decide
    omega
  have hfast : RawRwLock.tryLockSharedFast s = ⟨false, s⟩ := by
    rw [RawRwLock.tryLockSharedFast, hadd]
    simp [hov]
  rw [RawRwLock.lockShared, hfast]
  simp only [RawRwLock.lockSharedSlow, hadd]
  simp [hov]

/-- Witness for C8 at the largest non-writer-held state word. -/
theorem lockShared_overflow_panics_witness :
    RawRwLock.lockShared (USIZE - 8) = .panicked "reader count overflowed" :=
  lockShared_overflow_panics (USIZE - 8) (by decide) (by decide) (by decide)

/-- The invalid-shard branch is not taken whenever the computed index is in
range. -/
theorem determineShard_of_lt (shift numShards hash : Nat)
    (h : ((hash <<< 7) % USIZE) >>> shift < numShards) :
    determineShard shift numShards hash =
      some (((hash <<< 7) % USIZE) >>> shift) := by
  simp only [determineShard]
  rw [if_neg (by omega)]

/-- C1: any table or collection built by a constructor has
shift = word_bits - log2(shard_count); the shard index is
(hash << 7) >> shift, and it is always strictly below the shard count, so
the invalid-shard branch of _determine_shard is never taken. -/
theorem shard_index_in_range (T S : Type) (capacity shardAmount k : Nat)
    (hk1 : 1 ≤ k) (hk2 : k ≤ 63) (hsa : shardAmount = 2 ^ k)
    (m : ClashTable T)
    (hm : ClashTable.withCapacityAndShardAmount T capacity shardAmount = some m)
    (c : ClashCollection S) (init : S)
    (hc : ClashCollection.withShardAmount S shardAmount init = some c)
    (hash : Nat) :
    m.shift = wordBits - k ∧ c.shift = wordBits - k ∧
    (∃ idx, determineShard m.shift m.shards.length hash = some idx ∧
      idx = ((hash <<< 7) % USIZE) >>> m.shift ∧ idx < m.shards.length) ∧
    (∃ idx, determineShard c.shift c.shards.length hash = some idx ∧
      idx = ((hash <<< 7) % USIZE) >>> c.shift ∧ idx < c.shards.length) := by
  subst hsa
  have hpt := isPowerOfTwo_two_pow k
  have hgt : 1 < 2 ^ k := by
    have h2 : (2 : Nat) ^ 1 ≤ 2 ^ k := Nat.pow_le_pow_right (by omega) hk1
    omega
  rw [ClashTable.withCapacityAndShardAmount, if_pos ⟨hgt, hpt⟩,
    Option.some.injEq] at hm
  rw [ClashCollection.withShardAmount, if_pos ⟨hgt, hpt⟩,
    Option.some.injEq] at hc
  subst hm
  subst hc
  have htz := trailingZeros_two_pow k hk2
  have hlen : (2 : Nat) ^ k > 0 := by omega
  refine ⟨by simp [htz], by simp [htz], ?_, ?_⟩
  · refine ⟨((hash <<< 7) % USIZE) >>> (wordBits - k), ?_, ?_, ?_⟩
    · simp only [List.length_replicate, htz]
      exact determineShard_of_lt _ _ _ (shifted_idx_lt k hash hk2)
    · simp [htz]
    · simp only [List.length_replicate]
      exact shifted_idx_lt k hash hk2
  · refine ⟨((hash <<< 7) % USIZE) >>> (wordBits - k), ?_, ?_, ?_⟩
    · simp only [List.length_replicate, htz]
      exact determineShard_of_lt _ _ _ (shifted_idx_lt k hash hk2)
    · simp [htz]
    · simp only [List.length_replicate]
      exact shifted_idx_lt k hash hk2

/-- Witness for C1 with four shards and hash 12345. -/
theorem shard_index_in_range_witness :
    sampleConstructedTable.shift = wordBits - 2 ∧
    sampleConstructedCollection.shift = wordBits - 2 ∧
    (∃ idx, determineShard sampleConstructedTable.shift
        sampleConstructedTable.shards.length 12345 = some idx ∧
      idx = ((12345 <<< 7) % USIZE) >>> sampleConstructedTable.shift ∧
      idx < sampleConstructedTable.shards.length) ∧
    (∃ idx, determineShard sampleConstructedCollection.shift
        sampleConstructedCollection.shards.length 12345 = some idx ∧
      idx = ((12345 <<< 7) % USIZE) >>> sampleConstructedCollection.shift ∧
      idx < sampleConstructedCollection.shards.length) :=
  shard_index_in_range Nat Nat 0 4 2 (by omega) (by omega) (by omega)
    sampleConstructedTable (by decide)
    sampleConstructedCollection 0 (by decide) 12345

/-- The least multiple of n at least c, for positive c and n, is what
specRoundUpToMultiple computes. -/
theorem roundUp_bounds (c n : Nat) (hn : 0 < n) (hc : 0 < c) :
    c ≤ specRoundUpToMultiple c n ∧ specRoundUpToMultiple c n < c + n ∧
    specRoundUpToMultiple c n % n = 0 := by
  match n, hn with
  | m + 1, _ =>
    have hsub : c + (m + 1) - 1 = c + m := by omega
    rw [specRoundUpToMultiple, hsub]
    have hdm := Nat.div_add_mod (c + m) (m + 1)
    rw [mul_comm (m + 1) ((c + m) / (m + 1))] at hdm
    have hr : (c + m) % (m + 1) < m + 1 := Nat.mod_lt _ (by omega)
    refine ⟨?_, ?_, Nat.mul_mod_left _ _⟩ <;>
    · obtain ⟨p, hp⟩ : ∃ p, (c + m) / (m + 1) * (m + 1) = p := ⟨_, rfl⟩
      obtain ⟨r, hrr⟩ : ∃ r, (c + m) % (m + 1) = r := ⟨_, rfl⟩
      rw [hp, hrr] at hdm
      rw [hrr] at hr
      rw [hp]
      omega

/-- C7 (amended): for shard_amount = 2^k > 1 and nonzero capacity such that
capacity + shard_amount - 1 does not overflow usize, the constructor rounds
the capacity up to the next multiple of shard_amount and builds exactly
shard_amount shards, each with capacity roundedTotal / shard_amount; a
requested capacity of 0 yields shards of capacity 0. (The counterexample
shows the claim fails, under the release-build wrapping semantics modelled
here, when capacity + shard_amount - 1 wraps around 2^64.) -/
theorem withCapacity_rounds_and_divides (T : Type) (capacity k : Nat)
    (hk1 : 1 ≤ k) (hk2 : k ≤ 63) (hc : 0 < capacity)
    (hov : capacity + 2 ^ k - 1 < USIZE) :
    ClashTable.withCapacityAndShardAmount T capacity (2 ^ k) =
      some ⟨wordBits - k, List.replicate (2 ^ k)
        ⟨0, HashTable.withCapacity T
          (specRoundUpToMultiple capacity (2 ^ k) / 2 ^ k)⟩⟩ ∧
    specRoundUpToMultiple capacity (2 ^ k) % 2 ^ k = 0 ∧
    capacity ≤ specRoundUpToMultiple capacity (2 ^ k) ∧
    specRoundUpToMultiple capacity (2 ^ k) < capacity + 2 ^ k ∧
    ClashTable.withCapacityAndShardAmount T 0 (2 ^ k) =
      some ⟨wordBits - k, List.replicate (2 ^ k)
        ⟨0, HashTable.withCapacity T 0⟩⟩ := by
  have hpt := isPowerOfTwo_two_pow k
  have hgt : 1 < 2 ^ k := by
    have h2 : (2 : Nat) ^ 1 ≤ 2 ^ k := Nat.pow_le_pow_right (by omega) hk1
    omega
  have htz := trailingZeros_two_pow k hk2
  have hbounds := roundUp_bounds capacity (2 ^ k) (by omega) hc
  refine ⟨?_, hbounds.2.2, hbounds.1, hbounds.2.1, ?_⟩
  · rw [ClashTable.withCapacityAndShardAmount, if_pos ⟨hgt, hpt⟩]
    have hm1 : (capacity + (2 ^ k - 1)) % USIZE = capacity + 2 ^ k - 1 := by
      have h1 : capacity + (2 ^ k - 1) = capacity + 2 ^ k - 1 := by
        have := hgt
        omega
      rw [h1]
      exact Nat.mod_eq_of_lt hov
    have hmask := usizeNot_two_pow_sub_one k (by omega)
    have hand : (capacity + 2 ^ k - 1) &&& (USIZE - 2 ^ k) =
        specRoundUpToMultiple capacity (2 ^ k) := by
      have hx : capacity + 2 ^ k - 1 < 2 ^ 64 := by
        rw [USIZE_eq] at hov
        omega
      have h64 : USIZE - 2 ^ k = 2 ^ 64 - 2 ^ k := by rw [USIZE_eq]; norm_num
      rw [h64, and_usize_sub_pow _ k hx (by omega), specRoundUpToMultiple]
    have hcap : (if capacity ≠ 0 then
        ((capacity + (2 ^ k - 1)) % USIZE) &&& usizeNot (2 ^ k - 1)
        else capacity) = specRoundUpToMultiple capacity (2 ^ k) := by
      rw [if_pos (by omega), hm1, hmask, hand]
    simp only [hcap, htz]
  · rw [ClashTable.withCapacityAndShardAmount, if_pos ⟨hgt, hpt⟩]
    simp [htz]

/-- Witness for C7 at capacity 5 and four shards. -/
theorem withCapacity_rounds_and_divides_witness :
    ClashTable.withCapacityAndShardAmount Unit 5 (2 ^ 2) =
      some ⟨wordBits - 2, List.replicate (2 ^ 2)
        ⟨0, HashTable.withCapacity Unit
          (specRoundUpToMultiple 5 (2 ^ 2) / 2 ^ 2)⟩⟩ ∧
    specRoundUpToMultiple 5 (2 ^ 2) % 2 ^ 2 = 0 ∧
    5 ≤ specRoundUpToMultiple 5 (2 ^ 2) ∧
    specRoundUpToMultiple 5 (2 ^ 2) < 5 + 2 ^ 2 ∧
    ClashTable.withCapacityAndShardAmount Unit 0 (2 ^ 2) =
      some ⟨wordBits - 2, List.replicate (2 ^ 2)
        ⟨0, HashTable.withCapacity Unit 0⟩⟩ :=
  withCapacity_rounds_and_divides Unit 5 2 (by omega) (by omega) (by omega)
    (by decide)

/-- C7 counterexample: requesting capacity usize::MAX with two shards makes
capacity + shard_amount - 1 wrap to 0, so both shards are constructed with
capacity 0, not with half of the rounded-up total 2^64 as the claim's
"rounds up ... divided evenly" requires for every nonzero capacity. -/
theorem withCapacity_roundup_counterexample :
    ClashTable.withCapacityAndShardAmount Unit (USIZE - 1) 2 =
      some ⟨63, List.replicate 2 ⟨0, HashTable.withCapacity Unit 0⟩⟩ ∧
    specRoundUpToMultiple (USIZE - 1) 2 / 2 = 2 ^ 63 ∧
    (0 : Nat) ≠ 2 ^ 63 := by decide

/-- C9: cloning a ClashTable or a ClashCollection keeps the shift and the
shard count, shard i of the clone is a fresh lock around a clone of shard
i's contents, and every hash routes to the same shard index as in the
original. -/
theorem clone_preserves_structure_and_routing (T S : Type) (cl : T → T)
    (m : ClashTable T) (clS : S → S) (c : ClashCollection S) :
    (ClashTable.clone cl m).shift = m.shift ∧
    (ClashTable.clone cl m).shards.length = m.shards.length ∧
    (∀ i : Nat, ((ClashTable.clone cl m).shards[i]?) =
      (m.shards[i]?).map (fun sh => (⟨0, sh.table.clone cl⟩ : LockedShard T))) ∧
    (∀ hash, determineShard (ClashTable.clone cl m).shift
        (ClashTable.clone cl m).shards.length hash =
      determineShard m.shift m.shards.length hash) ∧
    (ClashCollection.clone clS c).shift = c.shift ∧
    (ClashCollection.clone clS c).shards.length = c.shards.length ∧
    (∀ i : Nat, ((ClashCollection.clone clS c).shards[i]?) =
      (c.shards[i]?).map (fun sh => (⟨0, clS sh.value⟩ : LockedCell S))) ∧
    (∀ hash, determineShard (ClashCollection.clone clS c).shift
        (ClashCollection.clone clS c).shards.length hash =
      determineShard c.shift c.shards.length hash) := by
  refine ⟨rfl, by simp [ClashTable.clone], ?_, ?_, rfl,
    by simp [ClashCollection.clone], ?_, ?_⟩
  · intro i
    simp [ClashTable.clone, List.getElem?_map]
  · intro hash
    simp [ClashTable.clone]
  · intro i
    simp [ClashCollection.clone, List.getElem?_map]
  · intro hash
    simp [ClashCollection.clone]

/-- C4: RefMut::try_map with a failing projection returns Err carrying the
same write guard (the shard lock is neither released nor re-acquired) and
still dereferencing the original entry, so the projection can be retried;
with a succeeding projection the guard transfers to the mapped handle. -/
theorem refMut_tryMap_preserves_guard {T U : Type} (r : tableref.RefMut T)
    (f : T → Option U) :
    (f r.t = none → ∃ r2, r.tryMap f = .error r2 ∧
      r2.guard = r.guard ∧ r2.value = r.value ∧ r2 = r) ∧
    (∀ u, f r.t = some u → r.tryMap f = .ok ⟨r.guard, u⟩) := by
  constructor
  · intro hf
    refine ⟨⟨r.guard, r.t⟩, ?_, rfl, rfl, rfl⟩
    simp only [tableref.RefMut.tryMap, util.tryMap, hf]
  · intro u hf
    simp only [tableref.RefMut.tryMap, util.tryMap, hf]

/-- Witness for C4 with a projection that always fails. -/
theorem refMut_tryMap_preserves_guard_witness :
    ∃ r2, tableref.RefMut.tryMap (⟨⟨7⟩, 3⟩ : tableref.RefMut Nat)
        (fun _ => (none : Option Nat)) = .error r2 ∧
      r2.guard = (⟨⟨7⟩, 3⟩ : tableref.RefMut Nat).guard ∧
      r2.value = (⟨⟨7⟩, 3⟩ : tableref.RefMut Nat).value ∧
      r2 = ⟨⟨7⟩, 3⟩ :=
  (refMut_tryMap_preserves_guard ⟨⟨7⟩, 3⟩ (fun _ => none)).1 rfl

/-- C10: shared-mode Ref::try_map (table variant and key-value map variant)
also preserves its guard on failure: Err(self) carries the original read
guard and dereferences to the original value, and on success the guard (and
for the map variant the key) transfers to the mapped handle. -/
theorem ref_tryMap_preserves_guard {T U K V W : Type}
    (r : tableref.Ref T) (f : T → Option U)
    (q : mapref.Ref K V) (g : V → Option W) :
    (f r.t = none → r.tryMap f = .error r) ∧
    (∀ u, f r.t = some u → r.tryMap f = .ok ⟨r._guard, u⟩) ∧
    (g q.v = none → q.tryMap g = .error q) ∧
    (∀ w, g q.v = some w → q.tryMap g = .ok ⟨q._guard, q.k, w⟩) := by
  refine ⟨fun hf => ?_, fun u hf => ?_, fun hg => ?_, fun w hg => ?_⟩ <;>
    simp [tableref.Ref.tryMap, mapref.Ref.tryMap, *]

/-- Witness for C10 with projections that always fail. -/
theorem ref_tryMap_preserves_guard_witness :
    tableref.Ref.tryMap (⟨⟨1⟩, 10⟩ : tableref.Ref Nat)
        (fun _ => (none : Option Nat)) = .error ⟨⟨1⟩, 10⟩ ∧
    mapref.Ref.tryMap (⟨⟨2⟩, 0, 20⟩ : mapref.Ref Nat Nat)
        (fun _ => (none : Option Nat)) = .error ⟨⟨2⟩, 0, 20⟩ :=
  ⟨(ref_tryMap_preserves_guard (⟨⟨1⟩, 10⟩ : tableref.Ref Nat)
      (fun _ => (none : Option Nat)) (⟨⟨2⟩, 0, 20⟩ : mapref.Ref Nat Nat)
      (fun _ => (none : Option Nat))).1 rfl,
   (ref_tryMap_preserves_guard (⟨⟨1⟩, 10⟩ : tableref.Ref Nat)
      (fun _ => (none : Option Nat)) (⟨⟨2⟩, 0, 20⟩ : mapref.Ref Nat Nat)
      (fun _ => (none : Option Nat))).2.2.1 rfl⟩

/-- C6: try_find and try_find_mut never block: on any constructed table
shape they return Locked exactly when the target shard's lock cannot be
acquired immediately (shared acquisition for try_find, exclusive for
try_find_mut); otherwise Present with a handle to the element of that shard
matching (hash, eq) when one exists, and Absent when none does. -/
theorem tryFind_tryFindMut_spec {T : Type} (m : ClashTable T) (k : Nat)
    (hwf : WellFormed m k) (hash : Nat) (eq : T → Bool) :
    ∃ idx sh, determineShard m.shift m.shards.length hash = some idx ∧
      m.shards[idx]? = some sh ∧
      (m.tryFind hash eq = some .Locked ↔
        (RawRwLock.tryLockShared sh.lockState).ok = false) ∧
      (∀ t, m.tryFind hash eq = some (.Present ⟨⟨idx⟩, t⟩) ↔
        ((RawRwLock.tryLockShared sh.lockState).ok = true ∧
          sh.table.find hash eq = some t)) ∧
      (m.tryFind hash eq = some .Absent ↔
        ((RawRwLock.tryLockShared sh.lockState).ok = true ∧
          sh.table.find hash eq = none)) ∧
      (m.tryFindMut hash eq = some .Locked ↔
        (RawRwLock.tryLockExclusive sh.lockState).ok = false) ∧
      (∀ t, m.tryFindMut hash eq = some (.Present ⟨⟨idx⟩, t⟩) ↔
        ((RawRwLock.tryLockExclusive sh.lockState).ok = true ∧
          sh.table.find hash eq = some t)) ∧
      (m.tryFindMut hash eq = some .Absent ↔
        ((RawRwLock.tryLockExclusive sh.lockState).ok = true ∧
          sh.table.find hash eq = none)) ∧
      (∀ t, sh.table.find hash eq = some t →
        eq t = true ∧ (hash, t) ∈ sh.table.entries) := by
  obtain ⟨hshift, hlen, hk1, hk2⟩ := hwf
  have hlt : ((hash <<< 7) % USIZE) >>> m.shift < m.shards.length := by
    rw [hshift, hlen]
    exact shifted_idx_lt k hash hk2
  have hidx : determineShard m.shift m.shards.length hash =
      some (((hash <<< 7) % USIZE) >>> m.shift) := determineShard_of_lt _ _ _ hlt
  obtain ⟨sh, hsh⟩ : ∃ sh,
      m.shards[((hash <<< 7) % USIZE) >>> m.shift]? = some sh :=
    ⟨m.shards[((hash <<< 7) % USIZE) >>> m.shift],
      List.getElem?_eq_getElem hlt⟩
  refine ⟨_, sh, hidx, hsh, ?_, ?_, ?_, ?_, ?_, ?_, ?_⟩
  · cases hok : (RawRwLock.tryLockShared sh.lockState).ok <;>
      simp [ClashTable.tryFind, hidx, hsh, hok]
    cases hfind : sh.table.find hash eq <;> simp [hfind]
  · intro t
    cases hok : (RawRwLock.tryLockShared sh.lockState).ok <;>
      cases hfind : sh.table.find hash eq <;>
      simp [ClashTable.tryFind, hidx, hsh, hok, hfind, eq_comm]
  · cases hok : (RawRwLock.tryLockShared sh.lockState).ok <;>
      cases hfind : sh.table.find hash eq <;>
      simp [ClashTable.tryFind, hidx, hsh, hok, hfind]
  · cases hok : (RawRwLock.tryLockExclusive sh.lockState).ok <;>
      simp [ClashTable.tryFindMut, hidx, hsh, hok]
    cases hfind : sh.table.find hash eq <;> simp [hfind]
  · intro t
    cases hok : (RawRwLock.tryLockExclusive sh.lockState).ok <;>
      cases hfind : sh.table.find hash eq <;>
      simp [ClashTable.tryFindMut, hidx, hsh, hok, hfind, eq_comm]
  · cases hok : (RawRwLock.tryLockExclusive sh.lockState).ok <;>
      cases hfind : sh.table.find hash eq <;>
      simp [ClashTable.tryFindMut, hidx, hsh, hok, hfind]
  · intro t hft
    rw [HashTable.find] at hft
    obtain ⟨pr, hpr, hsnd⟩ := Option.map_eq_some'.mp hft
    have hp := List.find?_some hpr
    have hmem := List.mem_of_find?_eq_some hpr
    simp only [Bool.and_eq_true, beq_iff_eq] at hp
    refine ⟨by rw [← hsnd]; exact hp.2, ?_⟩
    have hpair : pr = (hash, t) := by
      obtain ⟨a, b⟩ := pr
      simp only at hsnd
      simp only [Prod.mk.injEq]
      exact ⟨hp.1, hsnd⟩
    rwa [hpair] at hmem

/-- Witness for C6 on a two-shard table whose shard 0 is unlocked and holds
the element 42 under hash 5. -/
theorem tryFind_tryFindMut_spec_witness :
    ∃ idx sh, determineShard sampleTwoShardTable.shift
        sampleTwoShardTable.shards.length 5 = some idx ∧
      sampleTwoShardTable.shards[idx]? = some sh ∧
      (sampleTwoShardTable.tryFind 5 (fun t => t == 42) = some .Locked ↔
        (RawRwLock.tryLockShared sh.lockState).ok = false) ∧
      (∀ t, sampleTwoShardTable.tryFind 5 (fun t => t == 42) =
          some (.Present ⟨⟨idx⟩, t⟩) ↔
        ((RawRwLock.tryLockShared sh.lockState).ok = true ∧
          sh.table.find 5 (fun t => t == 42) = some t)) ∧
      (sampleTwoShardTable.tryFind 5 (fun t => t == 42) = some .Absent ↔
        ((RawRwLock.tryLockShared sh.lockState).ok = true ∧
          sh.table.find 5 (fun t => t == 42) = none)) ∧
      (sampleTwoShardTable.tryFindMut 5 (fun t => t == 42) = some .Locked ↔
        (RawRwLock.tryLockExclusive sh.lockState).ok = false) ∧
      (∀ t, sampleTwoShardTable.tryFindMut 5 (fun t => t == 42) =
          some (.Present ⟨⟨idx⟩, t⟩) ↔
        ((RawRwLock.tryLockExclusive sh.lockState).ok = true ∧
          sh.table.find 5 (fun t => t == 42) = some t)) ∧
      (sampleTwoShardTable.tryFindMut 5 (fun t => t == 42) = some .Absent ↔
        ((RawRwLock.tryLockExclusive sh.lockState).ok = true ∧
          sh.table.find 5 (fun t => t == 42) = none)) ∧
      (∀ t, sh.table.find 5 (fun t => t == 42) = some t →
        (t == 42) = true ∧ (5, t) ∈ sh.table.entries) :=
  tryFind_tryFindMut_spec sampleTwoShardTable 1
    (by exact ⟨by decide, by decide, by decide, by decide⟩) 5 (fun t => t == 42)

end Clash




